/-
  Verification of the expression pipeline of the Rules-Based Filter Engine
  Service (TypeScript): lexer (src/parser/lexer.ts), Pratt parser
  (src/parser/parser.ts), and evaluator (src/evaluator/evaluator.ts),
  shallowly embedded in Lean 4.

  Modelling conventions:
  - JavaScript numbers are modelled as rationals (ℚ).  The claims under
    scrutiny only involve decimal literals and finite values; NaN does not
    arise (the code's `isNaN` guard is commented at `toNumber`).
  - A JS data object is an association list `List (String × Value)`;
    `data[field]` returning `undefined` is modelled as lookup returning
    `none`, while an explicit `null` value is `some Value.null`.
  - Thrown JS `Error`s are modelled with `Except`: the error type's
    constructors stand for the distinct `throw new Error(...)` sites and
    carry the data interpolated into the message (see `EvalErr.message`,
    mirroring the exact message strings of the source).
  - The TS lexer is a cursor over the input string; it is modelled as a
    function consuming a `List Char` plus the running absolute offset.
  - The TS parser pulls tokens one at a time from the lexer; since the
    lexer is deterministic, the model first materialises the token list
    (`tokenize`) and the parser consumes it, re-serving an `EOF` token
    once the list is exhausted exactly as the real lexer keeps returning
    `EOF` after end of input.  The mutually recursive parser procedures
    are defunctionalised into one fuel-indexed function `parseRun` with a
    mode tag per source procedure; fuel is always sufficient for real runs
    (see `parseRun_mono` and the fuel bound in `parseTokens`).
-/
import Mathlib

/-! ## Token model (src/domain/token.ts) -/

/-- The closed set of token kinds produced by the lexer
(`TokenType` enum in src/domain/token.ts). -/
inductive TokenType
  | EOF
  | ILLEGAL
  | IDENTIFIER
  | NUMBER
  | STRING
  | EQUAL
  | NOT_EQUAL
  | GREATER
  | LESS
  | GREATER_EQUAL
  | LESS_EQUAL
  | AND
  | OR
  | LEFT_PAREN
  | RIGHT_PAREN
  deriving DecidableEq, Repr

/-- The string value of each `TokenType` enum member in the source. -/
def TokenType.enumValue : TokenType → String
  | .EOF => "EOF"
  | .ILLEGAL => "ILLEGAL"
  | .IDENTIFIER => "IDENTIFIER"
  | .NUMBER => "NUMBER"
  | .STRING => "STRING"
  | .EQUAL => "="
  | .NOT_EQUAL => "!="
  | .GREATER => ">"
  | .LESS => "<"
  | .GREATER_EQUAL => ">="
  | .LESS_EQUAL => "<="
  | .AND => "AND"
  | .OR => "OR"
  | .LEFT_PAREN => "("
  | .RIGHT_PAREN => ")"

/-- A lexical token: kind, literal text, and 0-based source offset of its
first character (`Token` interface in src/domain/token.ts). -/
structure Token where
  type : TokenType
  literal : String
  position : ℕ
  deriving DecidableEq, Repr

/-! ## Lexer (src/parser/lexer.ts)

The TS `Lexer` keeps `position`, `readPosition` and `ch` with the
invariant `readPosition = position + 1` and `ch = input[position]` (or
null past the end); the model therefore carries just the not-yet-consumed
characters and the absolute offset of the first of them. -/

/-- Character class of the lexer's `isLetter` (regex `[a-zA-Z]`). -/
def isLetterChar (c : Char) : Bool :=
  ('a' ≤ c && c ≤ 'z') || ('A' ≤ c && c ≤ 'Z')

/-- Character class of the lexer's `isDigit` (regex `[0-9]`). -/
def isDigitChar (c : Char) : Bool :=
  '0' ≤ c && c ≤ '9'

/-- Whitespace skipped between tokens (`skipWhitespace`). -/
def isWsChar (c : Char) : Bool :=
  c = ' ' || c = '\t' || c = '\n' || c = '\r'

/-- `lookupIdent`: the literals `AND` and `OR` (case-sensitive) are
keywords; every other identifier is `IDENTIFIER`. -/
def lookupIdent (ident : String) : TokenType :=
  if ident = "AND" then .AND
  else if ident = "OR" then .OR
  else .IDENTIFIER

/-- Continuation class of `readIdentifier`: letters, digits or `_`. -/
def isIdentChar (c : Char) : Bool :=
  isLetterChar c || isDigitChar c || c = '_'

/-- `readNumber`: one or more digits, optionally followed by `.` and one
or more digits; a trailing `.` not followed by a digit is not consumed.
Returns the literal characters and the remaining input. -/
def readNumber (cs : List Char) : List Char × List Char :=
  let intPart := cs.takeWhile isDigitChar
  let r1 := cs.dropWhile isDigitChar
  match r1 with
  | '.' :: d :: r2 =>
      if isDigitChar d then
        let frac := (d :: r2).takeWhile isDigitChar
        (intPart ++ '.' :: frac, (d :: r2).dropWhile isDigitChar)
      else (intPart, r1)
  | _ => (intPart, r1)

/-- One step of the lexer (`nextToken`): consumes the next token from the
remaining characters `cs` at absolute offset `pos`, returning the token,
the remaining characters, and the new offset. -/
def nextTokenL : List Char → ℕ → Token × List Char × ℕ
  | c :: cs, pos =>
      if isWsChar c then nextTokenL cs (pos + 1)
      else if c = '=' then (⟨.EQUAL, "=", pos⟩, cs, pos + 1)
      else if c = '!' then
        match cs with
        | '=' :: cs2 => (⟨.NOT_EQUAL, "!=", pos⟩, cs2, pos + 2)
        | _ => (⟨.ILLEGAL, "!", pos⟩, cs, pos + 1)
      else if c = '>' then
        match cs with
        | '=' :: cs2 => (⟨.GREATER_EQUAL, ">=", pos⟩, cs2, pos + 2)
        | _ => (⟨.GREATER, ">", pos⟩, cs, pos + 1)
      else if c = '<' then
        match cs with
        | '=' :: cs2 => (⟨.LESS_EQUAL, "<=", pos⟩, cs2, pos + 2)
        | _ => (⟨.LESS, "<", pos⟩, cs, pos + 1)
      else if c = '(' then (⟨.LEFT_PAREN, "(", pos⟩, cs, pos + 1)
      else if c = ')' then (⟨.RIGHT_PAREN, ")", pos⟩, cs, pos + 1)
      else if c = '\'' then
        -- `readString`: content runs to the closing quote or end of input
        -- (an unterminated string is not an error at the lexer level);
        -- the closing quote, when present, is consumed afterwards.
        let content := cs.takeWhile (fun ch => ch ≠ '\'')
        (⟨.STRING, ⟨content⟩, pos⟩,
          ((cs.dropWhile (fun ch => ch ≠ '\'')).drop 1),
          pos + content.length + 2)
      else if isLetterChar c then
        let lit := (c :: cs).takeWhile isIdentChar
        (⟨lookupIdent ⟨lit⟩, ⟨lit⟩, pos⟩,
          (c :: cs).dropWhile isIdentChar, pos + lit.length)
      else if isDigitChar c then
        let (lit, rest) := readNumber (c :: cs)
        (⟨.NUMBER, ⟨lit⟩, pos⟩, rest, pos + lit.length)
      else (⟨.ILLEGAL, ⟨[c]⟩, pos⟩, cs, pos + 1)
  | [], pos => (⟨.EOF, "", pos⟩, [], pos + 1)

/-- Iterate `nextTokenL` until the first `EOF` token (inclusive), with
fuel; `tokenize` supplies fuel that always suffices. -/
def tokenizeL : ℕ → List Char → ℕ → List Token
  | 0, _, _ => []
  | fuel + 1, cs, pos =>
      let (t, cs', pos') := nextTokenL cs pos
      if t.type = .EOF then [t] else t :: tokenizeL fuel cs' pos'

/-- The full token stream of an input string, ending in one `EOF` token. -/
def tokenize (s : String) : List Token :=
  tokenizeL (s.length + 1) s.toList 0

/-! ## Number literal parsing (parser's `parseNumberLiteral`)

`parseFloat` on the NUMBER tokens this lexer emits (shape
`[0-9]+(\.[0-9]+)?`): it is modelled for exactly the prefix grammar
`[0-9]+(\.[0-9]+)?` and returns `none` (JS `NaN`) when the text has no
leading digit. -/

/-- Numeric value of a digit string. -/
def natOfDigits (cs : List Char) : ℕ :=
  cs.foldl (fun acc c => 10 * acc + (c.toNat - 48)) 0

/-- `parseFloat` restricted to the lexer's NUMBER grammar; `none` stands
for JS `NaN`.  The value `i.f` is the exact rational
`(i * 10^|f| + f) / 10^|f|` (built with `mkRat` so that it reduces in the
kernel). -/
def parseFloatQ (s : String) : Option ℚ :=
  let cs := s.toList
  let intPart := cs.takeWhile isDigitChar
  if intPart = [] then none
  else
    match cs.dropWhile isDigitChar with
    | '.' :: rest2 =>
        let frac := rest2.takeWhile isDigitChar
        if frac = [] then some (mkRat (natOfDigits intPart) 1)
        else some (mkRat (natOfDigits intPart * 10 ^ frac.length +
          natOfDigits frac) (10 ^ frac.length))
    | _ => some (mkRat (natOfDigits intPart) 1)

/-! ## AST model (src/domain/ast.ts)

The TS `Expression` class hierarchy (`BinaryExpression`,
`LogicalExpression`, `Identifier`, `NumberLiteral`, `StringLiteral`) as a
sum type.  `binary` is the source's `BinaryExpression` (a comparison, the
spec's `Comparison`), `logical` its `LogicalExpression`. -/

/-- AST node variants. -/
inductive Expression
  | binary (left : Expression) (operator : Token) (right : Expression)
  | logical (left : Expression) (operator : Token) (right : Expression)
  | identifier (token : Token) (value : String)
  | numberLiteral (token : Token) (value : ℚ)
  | stringLiteral (token : Token) (value : String)
  deriving DecidableEq, Repr

/-- The runtime class name of a node (`expr.constructor.name` in TS),
used in the evaluator's unexpected-expression error message. -/
def Expression.ctorName : Expression → String
  | .binary .. => "BinaryExpression"
  | .logical .. => "LogicalExpression"
  | .identifier .. => "Identifier"
  | .numberLiteral .. => "NumberLiteral"
  | .stringLiteral .. => "StringLiteral"

/-! ## Parser (src/parser/parser.ts) -/

/-- The parser's two-tier precedence table: `precedences[t] || LOWEST`
with LOWEST = 1, LOGICAL = 2, COMPARE = 3. -/
def precedenceOf : TokenType → ℕ
  | .OR => 2
  | .AND => 2
  | .EQUAL => 3
  | .NOT_EQUAL => 3
  | .GREATER => 3
  | .LESS => 3
  | .GREATER_EQUAL => 3
  | .LESS_EQUAL => 3
  | _ => 1

/-- The errors the parser can raise (`throw new Error(...)` sites),
carrying the data that the source interpolates into the message.
`outOfFuel` is an artefact of the fuel-indexed model and never occurs in
a run with the fuel budget `parseTokens` supplies. -/
inductive ParseErr
  | outOfFuel
  | unexpectedToken (literal : String) (position : ℕ)
  | numberParseFailure (literal : String) (position : ℕ)
  | missingClosingParen (position : ℕ)
  | trailingToken (literal : String) (position : ℕ)
  | accumulated (position : ℕ) (msg : String)
  deriving DecidableEq, Repr

/-- The exact message format of each parser `throw` site. -/
def ParseErr.message : ParseErr → String
  | .outOfFuel => "out of fuel"
  | .unexpectedToken lit pos =>
      "Unexpected token '" ++ lit ++ "' at position " ++ toString pos
  | .numberParseFailure lit pos =>
      "Could not parse '" ++ lit ++ "' as number at position " ++ toString pos
  | .missingClosingParen pos =>
      "Expected closing parenthesis ')' at position " ++ toString pos
  | .trailingToken lit pos =>
      "Unexpected token '" ++ lit ++ "' at position " ++ toString pos ++
        ". Expected end of expression."
  | .accumulated pos msg =>
      "Parsing error at position " ++ toString pos ++ ": " ++ msg

/-- Decidable equality for `Except`, so that concrete parser and
evaluator runs can be checked with `decide`. -/
instance {ε α : Type} [DecidableEq ε] [DecidableEq α] :
    DecidableEq (Except ε α) := fun x y =>
  match x, y with
  | .ok a, .ok b =>
      if h : a = b then .isTrue (by rw [h])
      else .isFalse (by intro hc; injection hc; contradiction)
  | .error e, .error f =>
      if h : e = f then .isTrue (by rw [h])
      else .isFalse (by intro hc; injection hc; contradiction)
  | .ok _, .error _ => .isFalse (by intro hc; exact Except.noConfusion hc)
  | .error _, .ok _ => .isFalse (by intro hc; exact Except.noConfusion hc)

/-- The token the model serves once the materialised token list is
exhausted: the real lexer keeps returning `EOF` tokens (their recorded
positions keep advancing, which no observable behaviour depends on). -/
def fallbackEOF : Token := ⟨.EOF, "", 0⟩

/-- Parser state: the two-token lookahead window (`curToken`,
`peekToken`), the not-yet-consumed tokens, and the accumulated `errors`
list of the source (which stays empty on every successful path because
each `addError` is immediately followed by a `throw`). -/
structure PState where
  cur : Token
  peek : Token
  rest : List Token
  errors : List String
  deriving DecidableEq, Repr

/-- `nextToken` of the parser: slide the lookahead window. -/
def advanceP (st : PState) : PState :=
  { cur := st.peek
    peek := st.rest.headD fallbackEOF
    rest := st.rest.drop 1
    errors := st.errors }

/-- Parser state after the constructor's two initial `nextToken` calls. -/
def initPState (ts : List Token) : PState :=
  { cur := ts.headD fallbackEOF
    peek := (ts.drop 1).headD fallbackEOF
    rest := ts.drop 2
    errors := [] }

/-- Mode tag selecting which of the parser's mutually recursive
procedures `parseRun` is executing: `parseExpression minPrec` /
`parsePrimary` / `parseGroupedExpression` / the while loop inside
`parseExpression` / `parseInfixExpression`. -/
inductive PMode
  | expression (minPrec : ℕ)
  | primary
  | grouped
  | loop (minPrec : ℕ) (left : Expression)
  | infixExpr (left : Expression)
  deriving Repr

/-- The parser's recursive core, defunctionalised over `PMode` and
indexed by fuel (strictly decreasing on every call).  Each mode mirrors
the body of the corresponding source procedure. -/
def parseRun : ℕ → PMode → PState → Except ParseErr (Expression × PState)
  | 0, _, _ => .error .outOfFuel
  | fuel + 1, .expression minPrec, st =>
      -- parseExpression: one primary, then the precedence-climbing loop
      match parseRun fuel .primary st with
      | .error e => .error e
      | .ok (left, st1) => parseRun fuel (.loop minPrec left) st1
  | fuel + 1, .primary, st =>
      match st.cur.type with
      | .IDENTIFIER => .ok (.identifier st.cur st.cur.literal, st)
      | .NUMBER =>
          -- parseNumberLiteral: parseFloat + isNaN guard
          match parseFloatQ st.cur.literal with
          | some v => .ok (.numberLiteral st.cur v, st)
          | none =>
              .error (.numberParseFailure st.cur.literal st.cur.position)
      | .STRING => .ok (.stringLiteral st.cur st.cur.literal, st)
      | .LEFT_PAREN => parseRun fuel .grouped st
      | _ => .error (.unexpectedToken st.cur.literal st.cur.position)
  | fuel + 1, .grouped, st =>
      -- parseGroupedExpression: skip '(', parse at LOWEST, expect ')'
      let st1 := advanceP st
      match parseRun fuel (.expression 1) st1 with
      | .error e => .error e
      | .ok (exp, st2) =>
          if st2.peek.type = .RIGHT_PAREN then .ok (exp, advanceP st2)
          else .error (.missingClosingParen st2.peek.position)
  | fuel + 1, .loop minPrec left, st =>
      -- while (peek != EOF && minPrec < peekPrecedence) { nextToken;
      --   left = parseInfixExpression(left) }
      if st.peek.type ≠ .EOF ∧ minPrec < precedenceOf st.peek.type then
        let st1 := advanceP st
        match parseRun fuel (.infixExpr left) st1 with
        | .error e => .error e
        | .ok (left', st2) => parseRun fuel (.loop minPrec left') st2
      else .ok (left, st)
  | fuel + 1, .infixExpr left, st =>
      -- parseInfixExpression: operator in cur; AND/OR builds Logical,
      -- anything else builds Binary; right side parsed at the operator's
      -- own precedence.
      let operator := st.cur
      if operator.type = .AND ∨ operator.type = .OR then
        let prec := precedenceOf st.cur.type
        let st1 := advanceP st
        match parseRun fuel (.expression prec) st1 with
        | .error e => .error e
        | .ok (right, st2) => .ok (.logical left operator right, st2)
      else
        let prec := precedenceOf st.cur.type
        let st1 := advanceP st
        match parseRun fuel (.expression prec) st1 with
        | .error e => .error e
        | .ok (right, st2) => .ok (.binary left operator right, st2)

/-- Fuel budget `parseTokens` supplies; always sufficient (each source
procedure consumes at least one token before re-entering itself except
for the constant-depth primary/grouped/loop chain). -/
def parseFuel (ts : List Token) : ℕ := 4 * ts.length + 16

/-- `Parser.parse`: parse one expression at LOWEST precedence, check the
accumulated error list, then require that only `EOF` remains (trailing
tokens are rejected). -/
def parseTokens (ts : List Token) : Except ParseErr Expression :=
  match parseRun (parseFuel ts) (.expression 1) (initPState ts) with
  | .error e => .error e
  | .ok (expr, st1) =>
      if st1.errors.length > 0 then
        .error (.accumulated st1.cur.position (st1.errors.headD ""))
      else
        let st2 :=
          if st1.peek.type = .EOF ∧ st1.cur.type ≠ .EOF
          then advanceP st1 else st1
        if st2.cur.type ≠ .EOF then
          .error (.trailingToken st2.cur.literal st2.cur.position)
        else .ok expr

/-- The exported pipeline entry point `parseExpression(expression)`:
Lexer + Parser over an input string. -/
def parseExpressionString (expression : String) : Except ParseErr Expression :=
  parseTokens (tokenize expression)

/-! ## Runtime values and data records (src/evaluator/evaluator.ts) -/

/-- Runtime values a data record can bind: number, string, boolean, or
explicit `null`.  An absent key is modelled by the lookup returning
`none` (JS `undefined`). -/
inductive Value
  | num (q : ℚ)
  | str (s : String)
  | bool (b : Bool)
  | null
  deriving DecidableEq, Repr

/-- A data record (`Record<string, any>` in the source). -/
def DataRecord := List (String × Value)

/-- `this.data[fieldName]`: `none` models JS `undefined` (key absent). -/
def lookupField (data : DataRecord) (field : String) : Option Value :=
  match data.find? (fun p => p.1 = field) with
  | some p => some p.2
  | none => none

/-- One entry of the evaluation trace (`ClauseDetails`). -/
structure ClauseDetails where
  clause : String
  result : Bool
  deriving DecidableEq, Repr

/-- The errors the evaluator can raise (`throw new Error(...)` sites in
src/evaluator/evaluator.ts), carrying the interpolated data. -/
inductive EvalErr
  | leftNotIdentifier
  | rightNotLiteral
  | nonNumericGreater
  | nonNumericLess
  | unknownLogicalOperator (literal : String)
  | unknownComparisonOperator (op : TokenType)
  | unexpectedExpressionType (name : String)
  deriving DecidableEq, Repr

/-- The exact message string of each evaluator `throw` site. -/
def EvalErr.message : EvalErr → String
  | .leftNotIdentifier => "Left side of comparison must be an identifier"
  | .rightNotLiteral => "Right side of comparison must be a literal value"
  | .nonNumericGreater => "Cannot compare non-numeric values with > operator"
  | .nonNumericLess => "Cannot compare non-numeric values with < operator"
  | .unknownLogicalOperator lit => "Unknown logical operator: " ++ lit
  | .unknownComparisonOperator op =>
      "Unknown comparison operator: " ++ op.enumValue
  | .unexpectedExpressionType name => "Unexpected expression type: " ++ name

namespace Evaluator

/-- `toNumber(val)`: the value if it is already a number, `null` (here
`none`) for every other type — deliberately no string-to-number
conversion.  (The source also rejects `NaN`, which has no counterpart in
the ℚ model.) -/
def toNumber : Value → Option ℚ
  | .num q => some q
  | _ => none

/-- JS strict equality `===` on the value domain (the `left === right`
fast path of `equals`). -/
def strictEq : Value → Value → Bool
  | .num a, .num b => a == b
  | .str a, .str b => a == b
  | .bool a, .bool b => a == b
  | .null, .null => true
  | _, _ => false

/-- `equals(left, right)`: strict equality, else numeric comparison when
both convert via `toNumber`, else case-sensitive string comparison, else
false. -/
def equals (left right : Value) : Bool :=
  if strictEq left right then true
  else
    match toNumber left, toNumber right with
    | some a, some b => a == b
    | _, _ =>
      match left, right with
      | .str a, .str b => a == b
      | _, _ => false

/-- `greaterThan(left, right)`: numeric-only; throws when either side
does not convert to a number. -/
def greaterThan (left right : Value) : Except EvalErr Bool :=
  match toNumber left, toNumber right with
  | some a, some b => .ok (decide (b < a))
  | _, _ => .error .nonNumericGreater

/-- `lessThan(left, right)`: numeric-only; throws when either side does
not convert to a number. -/
def lessThan (left right : Value) : Except EvalErr Bool :=
  match toNumber left, toNumber right with
  | some a, some b => .ok (decide (a < b))
  | _, _ => .error .nonNumericLess

/-- `compare(left, operator, right)`: dispatch on the comparison
operator; `>=` is `greaterThan OR equals`, `<=` is `lessThan OR equals`
(the ordering call runs first, so its error wins). -/
def compare (left : Value) (operator : TokenType) (right : Value) :
    Except EvalErr Bool :=
  match operator with
  | .EQUAL => .ok (equals left right)
  | .NOT_EQUAL => .ok (!equals left right)
  | .GREATER => greaterThan left right
  | .LESS => lessThan left right
  | .GREATER_EQUAL =>
      match greaterThan left right with
      | .error e => .error e
      | .ok g => .ok (g || equals left right)
  | .LESS_EQUAL =>
      match lessThan left right with
      | .error e => .error e
      | .ok l => .ok (l || equals left right)
  | op => .error (.unknownComparisonOperator op)

/-- `formatClause(expr)`: renders a comparison as
`"<field> <operator> <value>"`; a number uses its original token literal,
a string is wrapped in single quotes, anything else renders as empty. -/
def formatClause : Expression → String
  | .binary left op right =>
      let l := match left with
        | .identifier _ v => v
        | _ => ""
      let r := match right with
        | .numberLiteral tok _ => tok.literal
        | .stringLiteral _ v => "'" ++ v ++ "'"
        | _ => ""
      l ++ " " ++ op.literal ++ " " ++ r
  | _ => ""

/-- The extraction of `expectedValue` from the right side of a comparison
(inline in `evalBinaryExpression`): must be a `NumberLiteral` or
`StringLiteral`. -/
def literalValue : Expression → Except EvalErr Value
  | .numberLiteral _ v => .ok (.num v)
  | .stringLiteral _ s => .ok (.str s)
  | .binary _ _ _ => .error .rightNotLiteral
  | .logical _ _ _ => .error .rightNotLiteral
  | .identifier _ _ => .error .rightNotLiteral

/-- `evalBinaryExpression(expr, trackDetails)`: left side must be an
identifier; a missing data field resolves the clause to `false` (before
the right side is even validated); otherwise the right side must be a
literal and `compare` decides the clause.  Returns the result together
with the clause details this node appends. -/
def evalBinaryExpression (data : DataRecord) (left : Expression)
    (operator : Token) (right : Expression) (trackDetails : Bool) :
    Except EvalErr (Bool × List ClauseDetails) :=
  match left with
  | .identifier tok fieldName =>
      match lookupField data fieldName with
      | none =>
          .ok (false,
            if trackDetails then
              [⟨formatClause (.binary (.identifier tok fieldName)
                operator right), false⟩]
            else [])
      | some dataValue =>
          match literalValue right with
          | .error e => .error e
          | .ok expectedValue =>
              match compare dataValue operator.type expectedValue with
              | .error e => .error e
              | .ok result =>
                  .ok (result,
                    if trackDetails then
                      [⟨formatClause (.binary (.identifier tok fieldName)
                        operator right), result⟩]
                    else [])
  -- `if (!(expr.left instanceof Identifier)) throw ...`; the remaining
  -- node kinds are spelled out so every equation is unconditional.
  | .binary _ _ _ => .error .leftNotIdentifier
  | .logical _ _ _ => .error .leftNotIdentifier
  | .numberLiteral _ _ => .error .leftNotIdentifier
  | .stringLiteral _ _ => .error .leftNotIdentifier

/-- `eval(expr, trackDetails)`: the recursive dispatcher.  A
`LogicalExpression` evaluates both operands (no short-circuiting) and
combines with AND/OR; a `BinaryExpression` goes to
`evalBinaryExpression`; any other node type throws.  The clause details
appended during the traversal are returned in order. -/
def eval (data : DataRecord) : Expression → Bool →
    Except EvalErr (Bool × List ClauseDetails)
  | .logical left op right, trackDetails =>
      match eval data left trackDetails with
      | .error e => .error e
      | .ok (leftResult, ld) =>
          match eval data right trackDetails with
          | .error e => .error e
          | .ok (rightResult, rd) =>
              match op.type with
              | .AND => .ok (leftResult && rightResult, ld ++ rd)
              | .OR => .ok (leftResult || rightResult, ld ++ rd)
              | _ => .error (.unknownLogicalOperator op.literal)
  | .binary left op right, trackDetails =>
      evalBinaryExpression data left op right trackDetails
  -- the `throw new Error(`Unexpected expression type: ...`)` fallthrough,
  -- spelled out per remaining node kind so every equation is
  -- unconditional.
  | .identifier tok v, _ =>
      .error (.unexpectedExpressionType
        (Expression.identifier tok v).ctorName)
  | .numberLiteral tok v, _ =>
      .error (.unexpectedExpressionType
        (Expression.numberLiteral tok v).ctorName)
  | .stringLiteral tok v, _ =>
      .error (.unexpectedExpressionType
        (Expression.stringLiteral tok v).ctorName)

/-- `Evaluator.evaluate(expr)`: the public entry point — fresh details,
full tracking.  The pair is the source's `{ result, details }`. -/
def evaluate (data : DataRecord) (expr : Expression) :
    Except EvalErr (Bool × List ClauseDetails) :=
  eval data expr true

end Evaluator

/-- The comparison (`BinaryExpression`) nodes that a successful
evaluation visits as clauses, in pre-order (left before right): the
evaluator recurses through `Logical` nodes only, so a comparison nested
below another comparison is never dispatched as a clause. -/
def clauseComparisons : Expression → List Expression
  | .logical l _ r => clauseComparisons l ++ clauseComparisons r
  | .binary l op r => [.binary l op r]
  | _ => []

/-- The number of `Comparison` nodes anywhere in the tree (including ones
nested inside another comparison's operands). -/
def comparisonNodeCount : Expression → ℕ
  | .logical l _ r => comparisonNodeCount l + comparisonNodeCount r
  | .binary l _ r => 1 + comparisonNodeCount l + comparisonNodeCount r
  | _ => 0

/-! ## Chains of same-precedence operators (for the associativity claim)

Token-level description of an unparenthesized chain
`clause (op clause)*` of comparison clauses joined by logical operators,
and the left-deep tree the parser is claimed to produce for it. -/

/-- The node `parsePrimary` builds for a single (non-parenthesized)
token, when it succeeds. -/
def primaryNode (t : Token) : Option Expression :=
  match t.type with
  | .IDENTIFIER => some (.identifier t t.literal)
  | .NUMBER => (parseFloatQ t.literal).map (fun v => .numberLiteral t v)
  | .STRING => some (.stringLiteral t t.literal)
  | _ => none

/-- The six comparison operator token kinds. -/
def isCompareType : TokenType → Bool
  | .EQUAL => true
  | .NOT_EQUAL => true
  | .GREATER => true
  | .LESS => true
  | .GREATER_EQUAL => true
  | .LESS_EQUAL => true
  | _ => false

/-- A simple comparison clause `field OP primary` as three tokens. -/
structure SimpleClause where
  identTok : Token
  opTok : Token
  litTok : Token
  deriving DecidableEq, Repr

/-- Well-formedness: the field token is an `IDENTIFIER`, the operator is
one of the six comparison operators, and the right-hand token is a
primary the parser accepts (identifier, parseable number, or string). -/
def SimpleClause.wf (c : SimpleClause) : Prop :=
  c.identTok.type = .IDENTIFIER ∧ isCompareType c.opTok.type = true ∧
    (primaryNode c.litTok).isSome = true

/-- The right-hand AST node of a well-formed clause. -/
def SimpleClause.rightNode (c : SimpleClause) : Expression :=
  match primaryNode c.litTok with
  | some e => e
  | none => .identifier c.litTok c.litTok.literal

/-- The comparison node the parser builds for a clause. -/
def SimpleClause.ast (c : SimpleClause) : Expression :=
  .binary (.identifier c.identTok c.identTok.literal) c.opTok c.rightNode

/-- The clause's three tokens in source order. -/
def SimpleClause.toks (c : SimpleClause) : List Token :=
  [c.identTok, c.opTok, c.litTok]

/-- The token stream of the chain `c0 (op clause)*` followed by `EOF`. -/
def chainTokens (c0 : SimpleClause) (ps : List (Token × SimpleClause))
    (eofT : Token) : List Token :=
  c0.toks ++ ps.flatMap (fun pc => pc.1 :: pc.2.toks) ++ [eofT]

/-- The left-deep tree: each operator combines everything to its left
with the single clause to its right. -/
def chainAST (c0 : SimpleClause) (ps : List (Token × SimpleClause)) :
    Expression :=
  ps.foldl (fun acc pc => .logical acc pc.1 pc.2.ast) c0.ast

/-- A parser state about to read the token list `ts`, with `cur` holding
the already-consumed token `c`. -/
def stateWith (c : Token) (ts : List Token) (errs : List String) : PState :=
  { cur := c, peek := ts.headD fallbackEOF, rest := ts.drop 1,
    errors := errs }

/-- The right-hand token of the last clause of the chain (`c` when the
chain has no operator at all). -/
def lastLitTok : List (Token × SimpleClause) → Token → Token
  | [], c => c
  | pc :: ps, _ => lastLitTok ps pc.2.litTok

/-! ## Theorems -/

/-- With tracking on, the clause details a successful evaluation returns
are exactly the clause comparisons of the tree, in pre-order, rendered by
`formatClause`. -/
theorem eval_clause_trace (d : DataRecord) :
    ∀ (e : Expression) (b : Bool) (ds : List ClauseDetails),
      Evaluator.eval d e true = .ok (b, ds) →
      ds.map ClauseDetails.clause =
        (clauseComparisons e).map Evaluator.formatClause := by
  intro e
  induction e with
  | logical l op r ihl ihr =>
      intro b ds h
      rw [Evaluator.eval] at h
      cases hl : Evaluator.eval d l true with
      | error e => rw [hl] at h; exact absurd h (by simp)
      | ok p =>
          obtain ⟨bl, dl⟩ := p
          rw [hl] at h
          cases hr : Evaluator.eval d r true with
          | error e => rw [hr] at h; exact absurd h (by simp)
          | ok q =>
              obtain ⟨br, dr⟩ := q
              rw [hr] at h
              have hds : ds = dl ++ dr := by
                cases hop : op.type <;> rw [hop] at h <;>
                  simp only [Except.ok.injEq, Prod.mk.injEq,
                    reduceCtorEq] at h <;> tauto
              subst hds
              simp only [clauseComparisons, List.map_append,
                ihl bl dl hl, ihr br dr hr]
  | binary l op r ihl ihr =>
      intro b ds h
      rw [Evaluator.eval] at h
      cases l with
      | identifier tok f =>
          rw [Evaluator.evalBinaryExpression] at h
          cases hlk : lookupField d f with
          | none =>
              rw [hlk] at h
              simp only [if_true, Except.ok.injEq, Prod.mk.injEq] at h
              obtain ⟨hb, hds⟩ := h
              subst hds
              simp [clauseComparisons]
          | some v =>
              rw [hlk] at h
              dsimp only at h
              cases hlv : Evaluator.literalValue r with
              | error e => rw [hlv] at h; exact absurd h (by simp)
              | ok ev =>
                  rw [hlv] at h
                  dsimp only at h
                  cases hc : Evaluator.compare v op.type ev with
                  | error e => rw [hc] at h; exact absurd h (by simp)
                  | ok res =>
                      rw [hc] at h
                      simp only [if_true, Except.ok.injEq,
                        Prod.mk.injEq] at h
                      obtain ⟨hb, hds⟩ := h
                      subst hds
                      simp [clauseComparisons]
      | binary l2 op2 r2 =>
          rw [Evaluator.evalBinaryExpression] at h
          exact absurd h (by simp)
      | logical l2 op2 r2 =>
          rw [Evaluator.evalBinaryExpression] at h
          exact absurd h (by simp)
      | numberLiteral tok v =>
          rw [Evaluator.evalBinaryExpression] at h
          exact absurd h (by simp)
      | stringLiteral tok v =>
          rw [Evaluator.evalBinaryExpression] at h
          exact absurd h (by simp)
  | identifier tok v =>
      intro b ds h
      rw [Evaluator.eval] at h
      exact absurd h (by simp)
  | numberLiteral tok v =>
      intro b ds h
      rw [Evaluator.eval] at h
      exact absurd h (by simp)
  | stringLiteral tok v =>
      intro b ds h
      rw [Evaluator.eval] at h
      exact absurd h (by simp)

/-- C1 (amended): for every expression tree and data record for which
evaluation raises no error, the clauses sequence contains exactly one
outcome entry per Comparison node that the evaluator dispatches on as a
clause — i.e. per Comparison node not nested inside another Comparison
node's operands — in left-to-right (pre-order, left-before-right) order,
and both operands of every Logical node are always evaluated (no
short-circuiting). -/
theorem c1_amended (d : DataRecord) (e : Expression) (b : Bool)
    (ds : List ClauseDetails)
    (h : Evaluator.evaluate d e = .ok (b, ds)) :
    ds.map ClauseDetails.clause =
      (clauseComparisons e).map Evaluator.formatClause ∧
    (∀ l op r, e = .logical l op r →
      ∃ bl dl br dr, Evaluator.eval d l true = .ok (bl, dl) ∧
        Evaluator.eval d r true = .ok (br, dr) ∧ ds = dl ++ dr) := by
  constructor
  · exact eval_clause_trace d e b ds h
  · intro l op r he
    subst he
    rw [Evaluator.evaluate, Evaluator.eval] at h
    cases hl : Evaluator.eval d l true with
    | error e => rw [hl] at h; exact absurd h (by simp)
    | ok p =>
        obtain ⟨bl, dl⟩ := p
        rw [hl] at h
        cases hr : Evaluator.eval d r true with
        | error e => rw [hr] at h; exact absurd h (by simp)
        | ok q =>
            obtain ⟨br, dr⟩ := q
            rw [hr] at h
            refine ⟨bl, dl, br, dr, rfl, rfl, ?_⟩
            cases hop : op.type <;> rw [hop] at h <;>
              simp only [Except.ok.injEq, Prod.mk.injEq,
                reduceCtorEq] at h <;> tauto

/-- C1 (witness): the amended statement at the tree of
`age >= 18 AND country = 'US'` against `{age: 22, country: "US"}`. -/
theorem c1_witness :
    ([⟨"age >= 18", true⟩, ⟨"country = 'US'", true⟩] :
        List ClauseDetails).map ClauseDetails.clause =
      (clauseComparisons
        (.logical
          (.binary (.identifier ⟨.IDENTIFIER, "age", 0⟩ "age")
            ⟨.GREATER_EQUAL, ">=", 4⟩
            (.numberLiteral ⟨.NUMBER, "18", 7⟩ 18))
          ⟨.AND, "AND", 10⟩
          (.binary (.identifier ⟨.IDENTIFIER, "country", 14⟩ "country")
            ⟨.EQUAL, "=", 22⟩
            (.stringLiteral ⟨.STRING, "US", 24⟩ "US")))).map
        Evaluator.formatClause ∧
    (∀ l op r,
      (Expression.logical
          (.binary (.identifier ⟨.IDENTIFIER, "age", 0⟩ "age")
            ⟨.GREATER_EQUAL, ">=", 4⟩
            (.numberLiteral ⟨.NUMBER, "18", 7⟩ 18))
          ⟨.AND, "AND", 10⟩
          (.binary (.identifier ⟨.IDENTIFIER, "country", 14⟩ "country")
            ⟨.EQUAL, "=", 22⟩
            (.stringLiteral ⟨.STRING, "US", 24⟩ "US"))) =
        .logical l op r →
      ∃ bl dl br dr,
        Evaluator.eval [("age", .num 22), ("country", .str "US")] l true =
          .ok (bl, dl) ∧
        Evaluator.eval [("age", .num 22), ("country", .str "US")] r true =
          .ok (br, dr) ∧
        ([⟨"age >= 18", true⟩, ⟨"country = 'US'", true⟩] :
          List ClauseDetails) = dl ++ dr) :=
  c1_amended [("age", .num 22), ("country", .str "US")] _ true _ (by decide)

/-- C1 (counterexample): the claim counts every Comparison node of the
tree, but `a > (b = 'c')` parses to a Comparison nested inside a
Comparison, and against `{}` (field `a` absent) evaluation succeeds with
a single clause entry for the two Comparison nodes of the tree. -/
theorem c1_counterexample :
    parseExpressionString "a > (b = 'c')" =
      .ok (.binary (.identifier ⟨.IDENTIFIER, "a", 0⟩ "a")
        ⟨.GREATER, ">", 2⟩
        (.binary (.identifier ⟨.IDENTIFIER, "b", 5⟩ "b")
          ⟨.EQUAL, "=", 7⟩
          (.stringLiteral ⟨.STRING, "c", 9⟩ "c"))) ∧
    Evaluator.evaluate []
      (.binary (.identifier ⟨.IDENTIFIER, "a", 0⟩ "a")
        ⟨.GREATER, ">", 2⟩
        (.binary (.identifier ⟨.IDENTIFIER, "b", 5⟩ "b")
          ⟨.EQUAL, "=", 7⟩
          (.stringLiteral ⟨.STRING, "c", 9⟩ "c"))) =
      .ok (false, [⟨"a > ", false⟩]) ∧
    comparisonNodeCount
      (.binary (.identifier ⟨.IDENTIFIER, "a", 0⟩ "a")
        ⟨.GREATER, ">", 2⟩
        (.binary (.identifier ⟨.IDENTIFIER, "b", 5⟩ "b")
          ⟨.EQUAL, "=", 7⟩
          (.stringLiteral ⟨.STRING, "c", 9⟩ "c"))) = 2 ∧
    ([⟨"a > ", false⟩] : List ClauseDetails).length = 1 := by
  refine ⟨by decide, by decide, by decide, by decide⟩

/-- C2 (amended): a key that is present but bound to null is NOT treated
as absent (only JS `undefined` — a genuinely missing key — takes the
absent path): `=` yields clause result false without error, `!=` yields
clause result true without error, and `>`, `<`, `>=`, `<=` raise the
evaluator's non-numeric-comparison error. -/
theorem c2_amended (d : DataRecord) (ftok : Token) (f : String)
    (op : Token) (rhs : Expression) (rv : Value)
    (hnull : lookupField d f = some .null)
    (hlit : Evaluator.literalValue rhs = .ok rv) :
    (op.type = .EQUAL →
      Evaluator.evaluate d (.binary (.identifier ftok f) op rhs) =
        .ok (false, [⟨Evaluator.formatClause
          (.binary (.identifier ftok f) op rhs), false⟩])) ∧
    (op.type = .NOT_EQUAL →
      Evaluator.evaluate d (.binary (.identifier ftok f) op rhs) =
        .ok (true, [⟨Evaluator.formatClause
          (.binary (.identifier ftok f) op rhs), true⟩])) ∧
    ((op.type = .GREATER ∨ op.type = .GREATER_EQUAL) →
      Evaluator.evaluate d (.binary (.identifier ftok f) op rhs) =
        .error .nonNumericGreater) ∧
    ((op.type = .LESS ∨ op.type = .LESS_EQUAL) →
      Evaluator.evaluate d (.binary (.identifier ftok f) op rhs) =
        .error .nonNumericLess) := by
  have heq : Evaluator.equals .null rv = false := by
    cases rhs with
    | numberLiteral tok v =>
        rw [Evaluator.literalValue] at hlit
        obtain rfl : Value.num v = rv := by injection hlit
        simp [Evaluator.equals, Evaluator.strictEq, Evaluator.toNumber]
    | stringLiteral tok s =>
        rw [Evaluator.literalValue] at hlit
        obtain rfl : Value.str s = rv := by injection hlit
        simp [Evaluator.equals, Evaluator.strictEq, Evaluator.toNumber]
    | binary a o c =>
        rw [Evaluator.literalValue] at hlit; exact absurd hlit (by simp)
    | logical a o c =>
        rw [Evaluator.literalValue] at hlit; exact absurd hlit (by simp)
    | identifier tok v =>
        rw [Evaluator.literalValue] at hlit; exact absurd hlit (by simp)
  rw [Evaluator.evaluate, Evaluator.eval, Evaluator.evalBinaryExpression,
    hnull]
  refine ⟨?_, ?_, ?_, ?_⟩
  · intro hop
    rw [hlit, hop]
    simp [Evaluator.compare, heq]
  · intro hop
    rw [hlit, hop]
    simp [Evaluator.compare, heq]
  · rintro (hop | hop) <;> rw [hlit, hop] <;>
      simp [Evaluator.compare, Evaluator.greaterThan, Evaluator.toNumber]
  · rintro (hop | hop) <;> rw [hlit, hop] <;>
      simp [Evaluator.compare, Evaluator.lessThan, Evaluator.toNumber]

/-- C2 (counterexample): for the clause `age != 18` with `age` bound to
null, the clause result is true (the claim demands false), and for
`age > 18` with `age` bound to null, evaluation raises the non-numeric
comparison error (the claim demands false without error). -/
theorem c2_counterexample :
    Evaluator.evaluate [("age", .null)]
      (.binary (.identifier ⟨.IDENTIFIER, "age", 0⟩ "age")
        ⟨.NOT_EQUAL, "!=", 4⟩
        (.numberLiteral ⟨.NUMBER, "18", 7⟩ 18)) =
      .ok (true, [⟨"age != 18", true⟩]) ∧
    Evaluator.evaluate [("age", .null)]
      (.binary (.identifier ⟨.IDENTIFIER, "age", 0⟩ "age")
        ⟨.GREATER, ">", 4⟩
        (.numberLiteral ⟨.NUMBER, "18", 6⟩ 18)) =
      .error .nonNumericGreater := by
  refine ⟨by decide, by decide⟩

/-- C2 (witness): the amended statement at the clause `age = 18` with
`age` bound to null. -/
theorem c2_witness :
    (Token.type ⟨.EQUAL, "=", 4⟩ = .EQUAL →
      Evaluator.evaluate [("age", .null)]
        (.binary (.identifier ⟨.IDENTIFIER, "age", 0⟩ "age")
          ⟨.EQUAL, "=", 4⟩ (.numberLiteral ⟨.NUMBER, "18", 6⟩ 18)) =
        .ok (false, [⟨Evaluator.formatClause
          (.binary (.identifier ⟨.IDENTIFIER, "age", 0⟩ "age")
            ⟨.EQUAL, "=", 4⟩ (.numberLiteral ⟨.NUMBER, "18", 6⟩ 18)),
          false⟩])) ∧
    (Token.type ⟨.EQUAL, "=", 4⟩ = .NOT_EQUAL →
      Evaluator.evaluate [("age", .null)]
        (.binary (.identifier ⟨.IDENTIFIER, "age", 0⟩ "age")
          ⟨.EQUAL, "=", 4⟩ (.numberLiteral ⟨.NUMBER, "18", 6⟩ 18)) =
        .ok (true, [⟨Evaluator.formatClause
          (.binary (.identifier ⟨.IDENTIFIER, "age", 0⟩ "age")
            ⟨.EQUAL, "=", 4⟩ (.numberLiteral ⟨.NUMBER, "18", 6⟩ 18)),
          true⟩])) ∧
    ((Token.type ⟨.EQUAL, "=", 4⟩ = .GREATER ∨
        Token.type ⟨.EQUAL, "=", 4⟩ = .GREATER_EQUAL) →
      Evaluator.evaluate [("age", .null)]
        (.binary (.identifier ⟨.IDENTIFIER, "age", 0⟩ "age")
          ⟨.EQUAL, "=", 4⟩ (.numberLiteral ⟨.NUMBER, "18", 6⟩ 18)) =
        .error .nonNumericGreater) ∧
    ((Token.type ⟨.EQUAL, "=", 4⟩ = .LESS ∨
        Token.type ⟨.EQUAL, "=", 4⟩ = .LESS_EQUAL) →
      Evaluator.evaluate [("age", .null)]
        (.binary (.identifier ⟨.IDENTIFIER, "age", 0⟩ "age")
          ⟨.EQUAL, "=", 4⟩ (.numberLiteral ⟨.NUMBER, "18", 6⟩ 18)) =
        .error .nonNumericLess) :=
  c2_amended [("age", .null)] ⟨.IDENTIFIER, "age", 0⟩ "age"
    ⟨.EQUAL, "=", 4⟩ (.numberLiteral ⟨.NUMBER, "18", 6⟩ 18) (.num 18)
    (by decide) (by decide)

/-- C4: a comparison clause whose field name is not a key of the data
record yields clause result false with no error (for any operator and
right-hand side), evaluation of the rest of the tree continues, and in
particular `parse("age > 18")` evaluated against `{name: "John"}`
returns overall result false with exactly the clause entry
`{clauseText: "age > 18", result: false}`. -/
theorem c4_missing_field_false :
    (∀ (d : DataRecord) (ftok : Token) (f : String) (op : Token)
      (rhs : Expression),
      lookupField d f = none →
      Evaluator.evaluate d (.binary (.identifier ftok f) op rhs) =
        .ok (false, [⟨Evaluator.formatClause
          (.binary (.identifier ftok f) op rhs), false⟩])) ∧
    parseExpressionString "age > 18" =
      .ok (.binary (.identifier ⟨.IDENTIFIER, "age", 0⟩ "age")
        ⟨.GREATER, ">", 4⟩ (.numberLiteral ⟨.NUMBER, "18", 6⟩ 18)) ∧
    Evaluator.evaluate [("name", .str "John")]
      (.binary (.identifier ⟨.IDENTIFIER, "age", 0⟩ "age")
        ⟨.GREATER, ">", 4⟩ (.numberLiteral ⟨.NUMBER, "18", 6⟩ 18)) =
      .ok (false, [⟨"age > 18", false⟩]) ∧
    Evaluator.evaluate [("name", .str "John")]
      (.logical
        (.binary (.identifier ⟨.IDENTIFIER, "age", 0⟩ "age")
          ⟨.GREATER, ">", 4⟩ (.numberLiteral ⟨.NUMBER, "18", 6⟩ 18))
        ⟨.OR, "OR", 9⟩
        (.binary (.identifier ⟨.IDENTIFIER, "name", 12⟩ "name")
          ⟨.EQUAL, "=", 17⟩ (.stringLiteral ⟨.STRING, "John", 19⟩ "John"))) =
      .ok (true, [⟨"age > 18", false⟩, ⟨"name = 'John'", true⟩]) := by
  refine ⟨?_, by decide, by decide, by decide⟩
  intro d ftok f op rhs hmiss
  rw [Evaluator.evaluate, Evaluator.eval, Evaluator.evalBinaryExpression,
    hmiss]
  simp

/-- C4 (witness): the general part at `country = 'US'` against `{}`. -/
theorem c4_witness :
    Evaluator.evaluate []
      (.binary (.identifier ⟨.IDENTIFIER, "country", 0⟩ "country")
        ⟨.EQUAL, "=", 8⟩ (.stringLiteral ⟨.STRING, "US", 10⟩ "US")) =
      .ok (false, [⟨Evaluator.formatClause
        (.binary (.identifier ⟨.IDENTIFIER, "country", 0⟩ "country")
          ⟨.EQUAL, "=", 8⟩ (.stringLiteral ⟨.STRING, "US", 10⟩ "US")),
        false⟩]) :=
  c4_missing_field_false.1 [] ⟨.IDENTIFIER, "country", 0⟩ "country"
    ⟨.EQUAL, "=", 8⟩ (.stringLiteral ⟨.STRING, "US", 10⟩ "US") (by decide)

/-- C5: `parse("5 > 3")` succeeds, returning a Comparison whose left
child is a (number) literal; evaluating any comparison whose left child
is not an identifier fails, for every data record, with the evaluator
error whose message is "Left side of comparison must be an identifier" —
at evaluation time, never at parse time. -/
theorem c5_semantic_error_at_eval :
    parseExpressionString "5 > 3" =
      .ok (.binary (.numberLiteral ⟨.NUMBER, "5", 0⟩ 5)
        ⟨.GREATER, ">", 2⟩ (.numberLiteral ⟨.NUMBER, "3", 4⟩ 3)) ∧
    (∀ (d : DataRecord) (left : Expression) (op : Token)
      (right : Expression),
      (∀ tok v, left ≠ .identifier tok v) →
      Evaluator.evaluate d (.binary left op right) =
        .error .leftNotIdentifier) ∧
    EvalErr.message .leftNotIdentifier =
      "Left side of comparison must be an identifier" := by
  refine ⟨by decide, ?_, rfl⟩
  intro d left op right hnotid
  cases left with
  | identifier tok v => exact absurd rfl (hnotid tok v)
  | binary a o c =>
      rw [Evaluator.evaluate, Evaluator.eval,
        Evaluator.evalBinaryExpression]
  | logical a o c =>
      rw [Evaluator.evaluate, Evaluator.eval,
        Evaluator.evalBinaryExpression]
  | numberLiteral tok v =>
      rw [Evaluator.evaluate, Evaluator.eval,
        Evaluator.evalBinaryExpression]
  | stringLiteral tok v =>
      rw [Evaluator.evaluate, Evaluator.eval,
        Evaluator.evalBinaryExpression]

/-- C5 (witness): the general part applied to the parsed `5 > 3` tree
against the record `{x: 1}`. -/
theorem c5_witness :
    Evaluator.evaluate [("x", .num 1)]
      (.binary (.numberLiteral ⟨.NUMBER, "5", 0⟩ 5)
        ⟨.GREATER, ">", 2⟩ (.numberLiteral ⟨.NUMBER, "3", 4⟩ 3)) =
      .error .leftNotIdentifier :=
  c5_semantic_error_at_eval.2.1 [("x", .num 1)]
    (.numberLiteral ⟨.NUMBER, "5", 0⟩ 5) ⟨.GREATER, ">", 2⟩
    (.numberLiteral ⟨.NUMBER, "3", 4⟩ 3) (by intro tok v h; cases h)

/-- C6: for a comparison with operator `>`, `<`, `>=` or `<=` whose
field is present but bound to a non-numeric value (`toNumber` yields
none: a string, boolean, or null), evaluation fails hard with the
evaluator's non-numeric comparison error instead of producing a false
clause. -/
theorem c6_non_numeric_hard_failure (d : DataRecord) (ftok : Token)
    (f : String) (op : Token) (rhs : Expression) (rv v : Value)
    (hlk : lookupField d f = some v)
    (hnn : Evaluator.toNumber v = none)
    (hlit : Evaluator.literalValue rhs = .ok rv) :
    ((op.type = .GREATER ∨ op.type = .GREATER_EQUAL) →
      Evaluator.evaluate d (.binary (.identifier ftok f) op rhs) =
        .error .nonNumericGreater) ∧
    ((op.type = .LESS ∨ op.type = .LESS_EQUAL) →
      Evaluator.evaluate d (.binary (.identifier ftok f) op rhs) =
        .error .nonNumericLess) := by
  rw [Evaluator.evaluate, Evaluator.eval, Evaluator.evalBinaryExpression,
    hlk]
  dsimp only
  rw [hlit]
  dsimp only
  cases v with
  | num q => exact absurd hnn (by rw [Evaluator.toNumber]; simp)
  | str s =>
      refine ⟨?_, ?_⟩ <;> rintro (hop | hop) <;> rw [hop] <;>
        simp [Evaluator.compare, Evaluator.greaterThan,
          Evaluator.lessThan, Evaluator.toNumber]
  | bool b =>
      refine ⟨?_, ?_⟩ <;> rintro (hop | hop) <;> rw [hop] <;>
        simp [Evaluator.compare, Evaluator.greaterThan,
          Evaluator.lessThan, Evaluator.toNumber]
  | null =>
      refine ⟨?_, ?_⟩ <;> rintro (hop | hop) <;> rw [hop] <;>
        simp [Evaluator.compare, Evaluator.greaterThan,
          Evaluator.lessThan, Evaluator.toNumber]

/-- C6 (witness): `age > 18` with `age` bound to the string "hello". -/
theorem c6_witness :
    ((Token.type ⟨.GREATER, ">", 4⟩ = .GREATER ∨
        Token.type ⟨.GREATER, ">", 4⟩ = .GREATER_EQUAL) →
      Evaluator.evaluate [("age", .str "hello")]
        (.binary (.identifier ⟨.IDENTIFIER, "age", 0⟩ "age")
          ⟨.GREATER, ">", 4⟩ (.numberLiteral ⟨.NUMBER, "18", 6⟩ 18)) =
        .error .nonNumericGreater) ∧
    ((Token.type ⟨.GREATER, ">", 4⟩ = .LESS ∨
        Token.type ⟨.GREATER, ">", 4⟩ = .LESS_EQUAL) →
      Evaluator.evaluate [("age", .str "hello")]
        (.binary (.identifier ⟨.IDENTIFIER, "age", 0⟩ "age")
          ⟨.GREATER, ">", 4⟩ (.numberLiteral ⟨.NUMBER, "18", 6⟩ 18)) =
        .error .nonNumericLess) :=
  c6_non_numeric_hard_failure [("age", .str "hello")]
    ⟨.IDENTIFIER, "age", 0⟩ "age" ⟨.GREATER, ">", 4⟩
    (.numberLiteral ⟨.NUMBER, "18", 6⟩ 18) (.num 18) (.str "hello")
    (by decide) (by decide) (by decide)

/-- C9: an operand-only expression parses to the bare node as root
(`parse("age")` yields the bare identifier), and evaluating a bare
identifier, number literal, or string literal root fails, for every data
record, with the evaluator's unexpected-expression-type error (the
spec's "expression has no top-level boolean operator" case). -/
theorem c9_bare_operand :
    parseExpressionString "age" =
      .ok (.identifier ⟨.IDENTIFIER, "age", 0⟩ "age") ∧
    (∀ (d : DataRecord) (tok : Token) (v : String),
      Evaluator.evaluate d (.identifier tok v) =
        .error (.unexpectedExpressionType "Identifier")) ∧
    (∀ (d : DataRecord) (tok : Token) (v : ℚ),
      Evaluator.evaluate d (.numberLiteral tok v) =
        .error (.unexpectedExpressionType "NumberLiteral")) ∧
    (∀ (d : DataRecord) (tok : Token) (v : String),
      Evaluator.evaluate d (.stringLiteral tok v) =
        .error (.unexpectedExpressionType "StringLiteral")) := by
  refine ⟨by decide, ?_, ?_, ?_⟩ <;> intro d tok v <;> rfl

/-- C7: `equals` performs no string-to-number coercion — it is true
exactly when the values are strictly identical, or both are numbers with
equal numeric value, or both are equal strings; a clause comparing data
number 3 to numeric literal `3.0` is true, while comparing data string
"3" to numeric literal `3` has clause result false. -/
theorem c7_equals_no_coercion :
    (∀ a b : Value, Evaluator.equals a b = true ↔
      (Evaluator.strictEq a b = true ∨
       (∃ x : ℚ, a = .num x ∧ b = .num x) ∨
       (∃ s : String, a = .str s ∧ b = .str s))) ∧
    parseExpressionString "age = 3.0" =
      .ok (.binary (.identifier ⟨.IDENTIFIER, "age", 0⟩ "age")
        ⟨.EQUAL, "=", 4⟩ (.numberLiteral ⟨.NUMBER, "3.0", 6⟩ 3)) ∧
    Evaluator.evaluate [("age", .num 3)]
      (.binary (.identifier ⟨.IDENTIFIER, "age", 0⟩ "age")
        ⟨.EQUAL, "=", 4⟩ (.numberLiteral ⟨.NUMBER, "3.0", 6⟩ 3)) =
      .ok (true, [⟨"age = 3.0", true⟩]) ∧
    Evaluator.evaluate [("age", .str "3")]
      (.binary (.identifier ⟨.IDENTIFIER, "age", 0⟩ "age")
        ⟨.EQUAL, "=", 4⟩ (.numberLiteral ⟨.NUMBER, "3", 6⟩ 3)) =
      .ok (false, [⟨"age = 3", false⟩]) := by
  refine ⟨?_, by decide, by decide, by decide⟩
  intro a b
  cases a <;> cases b <;>
    simp [Evaluator.equals, Evaluator.strictEq, Evaluator.toNumber] <;>
    exact fun h => h.symm

/-- C10: an opening single quote never followed by a closing quote makes
the lexer produce a String token whose text is everything after the
opening quote up to end of input, followed by EndOfInput — no error at
the lexer or parser level — and `parse("name = 'US")` succeeds with a
Comparison whose right child is the string literal "US". -/
theorem c10_unterminated_string :
    (∀ (cs : List Char) (pos : ℕ), '\'' ∉ cs →
      nextTokenL ('\'' :: cs) pos =
        (⟨.STRING, ⟨cs⟩, pos⟩, [], pos + cs.length + 2)) ∧
    (∀ pos : ℕ, nextTokenL [] pos = (⟨.EOF, "", pos⟩, [], pos + 1)) ∧
    (∀ (cs : List Char) (pos fuel : ℕ), '\'' ∉ cs →
      tokenizeL (fuel + 2) ('\'' :: cs) pos =
        [⟨.STRING, ⟨cs⟩, pos⟩, ⟨.EOF, "", pos + cs.length + 2⟩]) ∧
    parseExpressionString "name = 'US" =
      .ok (.binary (.identifier ⟨.IDENTIFIER, "name", 0⟩ "name")
        ⟨.EQUAL, "=", 5⟩ (.stringLiteral ⟨.STRING, "US", 7⟩ "US")) := by
  have hstep : ∀ (cs : List Char) (pos : ℕ), '\'' ∉ cs →
      nextTokenL ('\'' :: cs) pos =
        (⟨.STRING, ⟨cs⟩, pos⟩, [], pos + cs.length + 2) := by
    intro cs pos hq
    have ht : cs.takeWhile (fun ch => !decide (ch = '\'')) = cs :=
      List.takeWhile_eq_self_iff.mpr (by
        intro x hx
        simp only [Bool.not_eq_true', decide_eq_false_iff_not]
        exact fun hc => hq (hc ▸ hx))
    have hd : cs.dropWhile (fun ch => !decide (ch = '\'')) = [] :=
      List.dropWhile_eq_nil_iff.mpr (by
        intro x hx
        simp only [Bool.not_eq_true', decide_eq_false_iff_not]
        exact fun hc => hq (hc ▸ hx))
    simp [nextTokenL, isWsChar, isLetterChar, isDigitChar, ht, hd,
      String.length]
  refine ⟨hstep, fun pos => rfl, ?_, by decide⟩
  intro cs pos fuel hq
  rw [tokenizeL, hstep cs pos hq]
  dsimp only
  rw [if_neg (by decide), tokenizeL]
  simp [nextTokenL]

/-- C10 (witness): the unterminated-string lexer step at `'US`. -/
theorem c10_witness :
    nextTokenL ['\'', 'U', 'S'] 7 = (⟨.STRING, "US", 7⟩, [], 11) := by
  simpa using c10_unterminated_string.1 ['U', 'S'] 7 (by decide)

/-- Fuel monotonicity: a parser run that succeeds with some fuel returns
the same result with one unit more. -/
theorem parseRun_mono :
    ∀ (fuel : ℕ) (m : PMode) (st : PState) (r : Expression × PState),
      parseRun fuel m st = .ok r → parseRun (fuel + 1) m st = .ok r := by
  intro fuel
  induction fuel with
  | zero =>
      intro m st r h
      rw [parseRun] at h
      exact absurd h (by simp)
  | succ f ih =>
      intro m st r h
      cases m with
      | expression p =>
          rw [parseRun] at h ⊢
          cases hp : parseRun f .primary st with
          | error e => rw [hp] at h; exact absurd h (by simp)
          | ok q =>
              obtain ⟨left, st1⟩ := q
              rw [hp] at h
              dsimp only at h
              rw [ih _ _ _ hp]
              dsimp only
              exact ih _ _ _ h
      | primary =>
          obtain ⟨⟨ct, clit, cpos⟩, pk, rst, errs⟩ := st
          rw [parseRun] at h ⊢
          cases ct <;> dsimp only at h ⊢
          case LEFT_PAREN => exact ih _ _ _ h
          all_goals exact h
      | grouped =>
          rw [parseRun] at h ⊢
          cases he : parseRun f (.expression 1) (advanceP st) with
          | error e => rw [he] at h; exact absurd h (by simp)
          | ok q =>
              obtain ⟨exp, st2⟩ := q
              rw [he] at h
              dsimp only at h
              rw [ih _ _ _ he]
              dsimp only
              exact h
      | loop p left =>
          rw [parseRun] at h ⊢
          by_cases hc : st.peek.type ≠ .EOF ∧ p < precedenceOf st.peek.type
          · rw [if_pos hc] at h ⊢
            dsimp only at h ⊢
            cases hi : parseRun f (.infixExpr left) (advanceP st) with
            | error e => rw [hi] at h; exact absurd h (by simp)
            | ok q =>
                obtain ⟨left', st2⟩ := q
                rw [hi] at h
                dsimp only at h
                rw [ih _ _ _ hi]
                dsimp only
                exact ih _ _ _ h
          · rw [if_neg hc] at h ⊢
            exact h
      | infixExpr left =>
          rw [parseRun] at h ⊢
          by_cases hc : st.cur.type = .AND ∨ st.cur.type = .OR
          · rw [if_pos hc] at h ⊢
            dsimp only at h ⊢
            cases he : parseRun f
                (.expression (precedenceOf st.cur.type)) (advanceP st) with
            | error e => rw [he] at h; exact absurd h (by simp)
            | ok q =>
                obtain ⟨right, st2⟩ := q
                rw [he] at h
                dsimp only at h
                rw [ih _ _ _ he]
                dsimp only
                exact h
          · rw [if_neg hc] at h ⊢
            dsimp only at h ⊢
            cases he : parseRun f
                (.expression (precedenceOf st.cur.type)) (advanceP st) with
            | error e => rw [he] at h; exact absurd h (by simp)
            | ok q =>
                obtain ⟨right, st2⟩ := q
                rw [he] at h
                dsimp only at h
                rw [ih _ _ _ he]
                dsimp only
                exact h

/-- Fuel monotonicity, `≤` form. -/
theorem parseRun_mono_le {f f' : ℕ} (hle : f ≤ f') (m : PMode)
    (st : PState) (r : Expression × PState)
    (h : parseRun f m st = .ok r) : parseRun f' m st = .ok r := by
  induction f' with
  | zero =>
      have : f = 0 := Nat.le_zero.mp hle
      subst this
      exact h
  | succ g ihg =>
      rcases Nat.lt_or_ge f (g + 1) with hlt | hge
      · exact parseRun_mono g m st r (ihg (Nat.lt_succ_iff.mp hlt))
      · have : f = g + 1 := Nat.le_antisymm hle hge
        subst this
        exact h

/-- No token kind has precedence above `COMPARE` (3). -/
theorem precedenceOf_le_three (t : TokenType) : precedenceOf t ≤ 3 := by
  cases t <;> decide

/-- A comparison operator token has precedence 3, is not `EOF`, and is
not a logical operator. -/
theorem compareType_facts {t : TokenType} (h : isCompareType t = true) :
    precedenceOf t = 3 ∧ t ≠ .EOF ∧ ¬(t = .AND ∨ t = .OR) := by
  cases t <;> simp_all [isCompareType, precedenceOf]

/-- A logical operator token has precedence 2 and is not `EOF`. -/
theorem logicalType_facts {t : TokenType}
    (h : t = .AND ∨ t = .OR) : precedenceOf t = 2 ∧ t ≠ .EOF := by
  rcases h with h | h <;> subst h <;> exact ⟨rfl, by simp⟩

/-- A token `parsePrimary` accepts is not `EOF`. -/
theorem primaryNode_ne_eof {t : Token}
    (h : (primaryNode t).isSome = true) : t.type ≠ .EOF := by
  intro he
  rw [primaryNode, he] at h
  simp at h

/-- `parsePrimary` on a state whose current token is a primary: returns
its node and does not advance. -/
theorem parseRun_primary_ok (f : ℕ) (st : PState) (node : Expression)
    (hp : primaryNode st.cur = some node) :
    parseRun (f + 1) .primary st = .ok (node, st) := by
  obtain ⟨⟨ct, clit, cpos⟩, pk, rst, errs⟩ := st
  rw [primaryNode] at hp
  rw [parseRun]
  cases ct <;> dsimp only at hp ⊢
  case IDENTIFIER => rw [Option.some_inj] at hp; rw [hp]
  case STRING => rw [Option.some_inj] at hp; rw [hp]
  case NUMBER =>
      cases hpf : parseFloatQ clit with
      | none => rw [hpf] at hp; exact absurd hp (by simp)
      | some v =>
          dsimp only
          simp only [Option.map] at hp
          rw [hpf] at hp
          dsimp only at hp
          rw [Option.some_inj] at hp
          rw [hp]
  all_goals exact absurd hp (by simp)

/-- The precedence-climbing loop never continues at `minPrec ≥ 3`
(nothing has higher precedence than a comparison operator). -/
theorem parseRun_loop3_stop (f p : ℕ) (left : Expression) (st : PState)
    (hp : 3 ≤ p) :
    parseRun (f + 1) (.loop p left) st = .ok (left, st) := by
  rw [parseRun, if_neg]
  rintro ⟨-, hlt⟩
  exact absurd (precedenceOf_le_three st.peek.type)
    (not_le.mpr (lt_of_le_of_lt hp hlt))

/-- `parseExpression` at a primary followed by nothing that binds
stronger than a comparison (`minPrec ≥ 3`): parses just the primary. -/
theorem parseRun_expr_stop (f p : ℕ) (st : PState) (node : Expression)
    (hp : primaryNode st.cur = some node) (h3 : 3 ≤ p) :
    parseRun (f + 1 + 1) (.expression p) st = .ok (node, st) := by
  rw [parseRun, parseRun_primary_ok f st node hp]
  dsimp only
  exact parseRun_loop3_stop f p node st h3

/-- `parseInfixExpression` with a comparison operator in `cur` and a
primary in `peek`: one advance, binary node, no further climbing (the
right side is parsed at precedence 3, above which nothing binds). -/
theorem parseRun_infix_compare (f : ℕ) (left : Expression) (st : PState)
    (rnode : Expression)
    (hcmp : isCompareType st.cur.type = true)
    (hp : primaryNode st.peek = some rnode) :
    parseRun (f + 1 + 1 + 1) (.infixExpr left) st =
      .ok (.binary left st.cur rnode, advanceP st) := by
  obtain ⟨hprec, -, hnotlog⟩ := compareType_facts hcmp
  rw [parseRun, if_neg hnotlog]
  dsimp only
  rw [hprec]
  have hcur : primaryNode (advanceP st).cur = some rnode := hp
  rw [parseRun_expr_stop f 3 (advanceP st) rnode hcur le_rfl]

/-- `parseExpression(LOGICAL)` on `ident cmp primary` followed by a
token that does not bind above the logical tier: parses exactly the one
comparison clause. -/
theorem parseRun_expr2_clause (f : ℕ) (st : PState) (rnode : Expression)
    (hid : st.cur.type = .IDENTIFIER)
    (hcmp : isCompareType st.peek.type = true)
    (hlit : primaryNode (st.rest.headD fallbackEOF) = some rnode)
    (hstop : ¬((advanceP (advanceP st)).peek.type ≠ .EOF ∧
        2 < precedenceOf ((advanceP (advanceP st)).peek.type))) :
    parseRun (f + 1 + 1 + 1 + 1 + 1 + 1) (.expression 2) st =
      .ok (.binary (.identifier st.cur st.cur.literal) st.peek rnode,
        advanceP (advanceP st)) := by
  have hpid : primaryNode st.cur =
      some (.identifier st.cur st.cur.literal) := by
    rw [primaryNode, hid]
  rw [parseRun, parseRun_primary_ok _ st _ hpid]
  dsimp only
  obtain ⟨hprec3, hne, -⟩ := compareType_facts hcmp
  rw [parseRun, if_pos ⟨hne, by rw [hprec3]; exact Nat.lt_succ_self 2⟩]
  dsimp only
  have hi := parseRun_infix_compare (f + 1)
    (.identifier st.cur st.cur.literal) (advanceP st) rnode hcmp hlit
  rw [hi]
  dsimp only
  rw [parseRun, if_neg hstop]
  rfl

/-- The right-hand node of a well-formed clause is what `parsePrimary`
produces for its token. -/
theorem rightNode_spec (c : SimpleClause)
    (h : (primaryNode c.litTok).isSome = true) :
    primaryNode c.litTok = some c.rightNode := by
  cases hpn : primaryNode c.litTok with
  | some e => rw [SimpleClause.rightNode, hpn]
  | none => rw [hpn] at h; exact absurd h (by simp)

/-- The precedence-climbing loop at LOWEST precedence over a chain
`(op clause)*` of logical operators and comparison clauses folds the
clauses onto `left` from the left — the left-deep tree. -/
theorem parseRun_loop1_chain (eofT : Token) (heof : eofT.type = .EOF) :
    ∀ (ps : List (Token × SimpleClause)) (f : ℕ) (left : Expression)
      (C : Token) (errs : List String),
      (∀ pc ∈ ps, (pc.1.type = .AND ∨ pc.1.type = .OR) ∧ pc.2.wf) →
      parseRun (f + 8 * ps.length + 1) (.loop 1 left)
        (stateWith C
          (ps.flatMap (fun pc => pc.1 :: pc.2.toks) ++ [eofT]) errs) =
        .ok (ps.foldl (fun acc pc => .logical acc pc.1 pc.2.ast) left,
          stateWith (lastLitTok ps C) [eofT] errs) := by
  intro ps
  induction ps with
  | nil =>
      intro f left C errs hwf
      simp only [List.flatMap_nil, List.nil_append, List.length_nil,
        Nat.mul_zero, Nat.add_zero]
      rw [parseRun, if_neg]
      · rfl
      · rintro ⟨hne, -⟩
        exact hne (by simp [stateWith, List.headD_cons, heof])
  | cons pc ps' ih =>
      intro f left C errs hwf
      obtain ⟨hop, hcwf⟩ := hwf pc (List.mem_cons_self ..)
      obtain ⟨hidT, hcmpT, hlitT⟩ := hcwf
      have hwf' : ∀ q ∈ ps',
          (q.1.type = .AND ∨ q.1.type = .OR) ∧ q.2.wf :=
        fun q hq => hwf q (List.mem_cons_of_mem _ hq)
      obtain ⟨hprec2, hne2⟩ := logicalType_facts hop
      have hstream : stateWith C
          ((pc :: ps').flatMap (fun q => q.1 :: q.2.toks) ++ [eofT])
          errs =
          { cur := C, peek := pc.1,
            rest := pc.2.identTok :: pc.2.opTok :: pc.2.litTok ::
              (ps'.flatMap (fun q => q.1 :: q.2.toks) ++ [eofT]),
            errors := errs } := by
        simp [stateWith, SimpleClause.toks, List.flatMap_cons,
          List.append_assoc]
      rw [hstream]
      have hfuel : f + 8 * (pc :: ps').length + 1 =
          (f + 8 * ps'.length + 8) + 1 := by
        simp only [List.length_cons]; ring
      rw [hfuel, parseRun, if_pos ⟨hne2, by rw [hprec2]; omega⟩]
      dsimp only [advanceP, List.headD_cons, List.drop_succ_cons,
        List.drop_zero]
      -- the infix step parses `op clause` and wraps `left`
      have hInfix : parseRun (f + 8 * ps'.length + 7 + 1)
          (.infixExpr left)
          { cur := pc.1,
            peek := pc.2.identTok,
            rest := pc.2.opTok :: pc.2.litTok ::
              (ps'.flatMap (fun q => q.1 :: q.2.toks) ++ [eofT]),
            errors := errs } =
          .ok (.logical left pc.1 pc.2.ast,
            stateWith pc.2.litTok
              (ps'.flatMap (fun q => q.1 :: q.2.toks) ++ [eofT]) errs) := by
        rw [parseRun, if_pos hop]
        dsimp only [advanceP, List.headD_cons, List.drop_succ_cons,
          List.drop_zero]
        rw [hprec2]
        have hE := parseRun_expr2_clause (f + 8 * ps'.length + 1)
          { cur := pc.2.identTok,
            peek := pc.2.opTok,
            rest := pc.2.litTok ::
              (ps'.flatMap (fun q => q.1 :: q.2.toks) ++ [eofT]),
            errors := errs }
          pc.2.rightNode hidT hcmpT
          (by simpa using rightNode_spec pc.2 hlitT) ?hstop
        case hstop =>
          dsimp only [advanceP, List.headD_cons, List.drop_succ_cons,
            List.drop_zero]
          cases hps' : ps' with
          | nil =>
              simp only [List.flatMap_nil, List.nil_append,
                List.headD_cons]
              rintro ⟨hne, -⟩
              exact hne heof
          | cons q qs =>
              have hq := hwf' q (by rw [hps']; exact List.mem_cons_self ..)
              obtain ⟨hqp, -⟩ := logicalType_facts hq.1
              simp only [List.flatMap_cons, List.cons_append,
                List.headD_cons]
              rintro ⟨-, hlt⟩
              rw [hqp] at hlt
              omega
        rw [show f + 8 * ps'.length + 7 =
            f + 8 * ps'.length + 1 + 1 + 1 + 1 + 1 + 1 + 1 from by ring]
        rw [hE]
        dsimp only [advanceP, List.headD_cons, List.drop_succ_cons,
          List.drop_zero]
        rfl
      rw [hInfix]
      dsimp only
      rw [show f + 8 * ps'.length + 8 =
          (f + 7) + 8 * ps'.length + 1 from by ring]
      rw [ih (f + 7) (.logical left pc.1 pc.2.ast) pc.2.litTok errs hwf']
      rw [List.foldl_cons]
      rfl

/-- The last clause token of a chain of well-formed clauses is a primary
token. -/
theorem lastLitTok_primary :
    ∀ (ps : List (Token × SimpleClause)) (C : Token),
      (primaryNode C).isSome = true →
      (∀ pc ∈ ps, (pc.1.type = .AND ∨ pc.1.type = .OR) ∧ pc.2.wf) →
      (primaryNode (lastLitTok ps C)).isSome = true := by
  intro ps
  induction ps with
  | nil => intro C hC _; exact hC
  | cons pc ps' ih =>
      intro C hC hwf
      have h := hwf pc (List.mem_cons_self ..)
      exact ih pc.2.litTok h.2.2.2
        (fun q hq => hwf q (List.mem_cons_of_mem _ hq))

/-- Length of a chain's token stream. -/
theorem chainTokens_length (c0 : SimpleClause)
    (ps : List (Token × SimpleClause)) (eofT : Token) :
    (chainTokens c0 ps eofT).length = 4 * ps.length + 4 := by
  induction ps with
  | nil => simp [chainTokens, SimpleClause.toks]
  | cons pc ps' ih =>
      simp [chainTokens, SimpleClause.toks, List.flatMap_cons] at ih ⊢
      omega

/-- A full `parseExpression(LOWEST)` run over a chain token stream:
produces the left-deep tree and stops with the last clause token in
`cur` and `EOF` in `peek`. -/
theorem parseRun_chain_top (c0 : SimpleClause)
    (ps : List (Token × SimpleClause)) (eofT : Token)
    (h0 : c0.wf) (hps : ∀ pc ∈ ps,
      (pc.1.type = .AND ∨ pc.1.type = .OR) ∧ pc.2.wf)
    (heof : eofT.type = .EOF) (f : ℕ) :
    parseRun (f + 8 * ps.length + 1 + 1 + 1 + 1 + 1) (.expression 1)
      (initPState (chainTokens c0 ps eofT)) =
      .ok (chainAST c0 ps,
        stateWith (lastLitTok ps c0.litTok) [eofT] []) := by
  obtain ⟨hidT, hcmpT, hlitT⟩ := h0
  have hinit : initPState (chainTokens c0 ps eofT) =
      { cur := c0.identTok, peek := c0.opTok,
        rest := c0.litTok ::
          (ps.flatMap (fun q => q.1 :: q.2.toks) ++ [eofT]),
        errors := [] } := by
    simp [initPState, chainTokens, SimpleClause.toks, List.append_assoc]
  rw [hinit]
  have hpid : primaryNode c0.identTok =
      some (.identifier c0.identTok c0.identTok.literal) := by
    rw [primaryNode, hidT]
  rw [parseRun, parseRun_primary_ok _ _ _ hpid]
  dsimp only
  obtain ⟨hprec3, hne3, -⟩ := compareType_facts hcmpT
  rw [parseRun, if_pos ⟨hne3, by rw [hprec3]; omega⟩]
  dsimp only [advanceP, List.headD_cons, List.drop_succ_cons,
    List.drop_zero]
  have hi := parseRun_infix_compare (f + 8 * ps.length)
    (.identifier c0.identTok c0.identTok.literal)
    { cur := c0.opTok, peek := c0.litTok,
      rest := ps.flatMap (fun q => q.1 :: q.2.toks) ++ [eofT],
      errors := [] }
    c0.rightNode hcmpT (by simpa using rightNode_spec c0 hlitT)
  rw [hi]
  dsimp only [advanceP]
  rw [show f + 8 * ps.length + 1 + 1 + 1 =
      (f + 2) + 8 * ps.length + 1 from by ring]
  have hLC := parseRun_loop1_chain eofT heof ps (f + 2)
    (.binary (.identifier c0.identTok c0.identTok.literal) c0.opTok
      c0.rightNode)
    c0.litTok [] hps
  rw [show (stateWith c0.litTok
      (ps.flatMap (fun q => q.1 :: q.2.toks) ++ [eofT]) []) =
      { cur := c0.litTok,
        peek := (ps.flatMap (fun q => q.1 :: q.2.toks) ++ [eofT]).headD
          fallbackEOF,
        rest := (ps.flatMap (fun q => q.1 :: q.2.toks) ++ [eofT]).drop 1,
        errors := [] } from rfl] at hLC
  rw [hLC]
  rfl

/-- C3: chains of operands joined by equal-precedence operators parse to
the left-deep tree: for every chain `clause (op clause)*` with logical
operators (AND and OR share the LOGICAL precedence tier, so AND does not
bind tighter than OR), `parse` returns the left fold; in particular
`a = 'x' AND b = 'y' AND c = 'z'` parses as `((a=x AND b=y) AND c=z)`
and chains mixing AND and OR associate to the left the same way. -/
theorem c3_left_assoc :
    (∀ (c0 : SimpleClause) (ps : List (Token × SimpleClause))
      (eofT : Token),
      c0.wf →
      (∀ pc ∈ ps, (pc.1.type = .AND ∨ pc.1.type = .OR) ∧ pc.2.wf) →
      eofT.type = .EOF →
      parseTokens (chainTokens c0 ps eofT) = .ok (chainAST c0 ps)) ∧
    parseExpressionString "a = 'x' AND b = 'y' AND c = 'z'" =
      .ok (.logical
        (.logical
          (.binary (.identifier ⟨.IDENTIFIER, "a", 0⟩ "a")
            ⟨.EQUAL, "=", 2⟩ (.stringLiteral ⟨.STRING, "x", 4⟩ "x"))
          ⟨.AND, "AND", 8⟩
          (.binary (.identifier ⟨.IDENTIFIER, "b", 12⟩ "b")
            ⟨.EQUAL, "=", 14⟩ (.stringLiteral ⟨.STRING, "y", 16⟩ "y")))
        ⟨.AND, "AND", 20⟩
        (.binary (.identifier ⟨.IDENTIFIER, "c", 24⟩ "c")
          ⟨.EQUAL, "=", 26⟩ (.stringLiteral ⟨.STRING, "z", 28⟩ "z"))) ∧
    parseExpressionString "a = 'x' AND b = 'y' OR c = 'z'" =
      .ok (.logical
        (.logical
          (.binary (.identifier ⟨.IDENTIFIER, "a", 0⟩ "a")
            ⟨.EQUAL, "=", 2⟩ (.stringLiteral ⟨.STRING, "x", 4⟩ "x"))
          ⟨.AND, "AND", 8⟩
          (.binary (.identifier ⟨.IDENTIFIER, "b", 12⟩ "b")
            ⟨.EQUAL, "=", 14⟩ (.stringLiteral ⟨.STRING, "y", 16⟩ "y")))
        ⟨.OR, "OR", 20⟩
        (.binary (.identifier ⟨.IDENTIFIER, "c", 23⟩ "c")
          ⟨.EQUAL, "=", 25⟩ (.stringLiteral ⟨.STRING, "z", 27⟩ "z"))) ∧
    parseExpressionString "a = 'x' OR b = 'y' AND c = 'z'" =
      .ok (.logical
        (.logical
          (.binary (.identifier ⟨.IDENTIFIER, "a", 0⟩ "a")
            ⟨.EQUAL, "=", 2⟩ (.stringLiteral ⟨.STRING, "x", 4⟩ "x"))
          ⟨.OR, "OR", 8⟩
          (.binary (.identifier ⟨.IDENTIFIER, "b", 11⟩ "b")
            ⟨.EQUAL, "=", 13⟩ (.stringLiteral ⟨.STRING, "y", 15⟩ "y")))
        ⟨.AND, "AND", 19⟩
        (.binary (.identifier ⟨.IDENTIFIER, "c", 23⟩ "c")
          ⟨.EQUAL, "=", 25⟩ (.stringLiteral ⟨.STRING, "z", 27⟩ "z"))) := by
  refine ⟨?_, by decide, by decide, by decide⟩
  intro c0 ps eofT h0 hps heof
  have hle : 0 + 8 * ps.length + 1 + 1 + 1 + 1 + 1 ≤
      parseFuel (chainTokens c0 ps eofT) := by
    rw [parseFuel, chainTokens_length]
    omega
  have hrun := parseRun_mono_le hle _ _ _
    (parseRun_chain_top c0 ps eofT h0 hps heof 0)
  rw [parseTokens, hrun]
  dsimp only
  rw [if_neg (by simp [stateWith])]
  have h1 : (stateWith (lastLitTok ps c0.litTok) [eofT] []).peek.type =
      TokenType.EOF ∧
      (stateWith (lastLitTok ps c0.litTok) [eofT] []).cur.type ≠
        TokenType.EOF := by
    constructor
    · simp [stateWith, List.headD_cons, heof]
    · simp only [stateWith]
      exact primaryNode_ne_eof
        (lastLitTok_primary ps c0.litTok h0.2.2 hps)
  rw [if_pos h1]
  have h2 : ¬((advanceP
      (stateWith (lastLitTok ps c0.litTok) [eofT] [])).cur.type ≠
        TokenType.EOF) := by
    simp [stateWith, advanceP, List.headD_cons, heof]
  rw [if_neg h2]

/-- C3 (witness): the chain theorem at the token stream of
`a = 'x' AND b = 'y' AND c = 'z'`. -/
theorem c3_witness :
    parseTokens (chainTokens
      ⟨⟨.IDENTIFIER, "a", 0⟩, ⟨.EQUAL, "=", 2⟩, ⟨.STRING, "x", 4⟩⟩
      [(⟨.AND, "AND", 8⟩,
        ⟨⟨.IDENTIFIER, "b", 12⟩, ⟨.EQUAL, "=", 14⟩, ⟨.STRING, "y", 16⟩⟩),
       (⟨.AND, "AND", 20⟩,
        ⟨⟨.IDENTIFIER, "c", 24⟩, ⟨.EQUAL, "=", 26⟩, ⟨.STRING, "z", 28⟩⟩)]
      ⟨.EOF, "", 31⟩) =
      .ok (chainAST
        ⟨⟨.IDENTIFIER, "a", 0⟩, ⟨.EQUAL, "=", 2⟩, ⟨.STRING, "x", 4⟩⟩
        [(⟨.AND, "AND", 8⟩,
          ⟨⟨.IDENTIFIER, "b", 12⟩, ⟨.EQUAL, "=", 14⟩,
            ⟨.STRING, "y", 16⟩⟩),
         (⟨.AND, "AND", 20⟩,
          ⟨⟨.IDENTIFIER, "c", 24⟩, ⟨.EQUAL, "=", 26⟩,
            ⟨.STRING, "z", 28⟩⟩)]) :=
  c3_left_assoc.1
    ⟨⟨.IDENTIFIER, "a", 0⟩, ⟨.EQUAL, "=", 2⟩, ⟨.STRING, "x", 4⟩⟩
    [(⟨.AND, "AND", 8⟩,
      ⟨⟨.IDENTIFIER, "b", 12⟩, ⟨.EQUAL, "=", 14⟩, ⟨.STRING, "y", 16⟩⟩),
     (⟨.AND, "AND", 20⟩,
      ⟨⟨.IDENTIFIER, "c", 24⟩, ⟨.EQUAL, "=", 26⟩, ⟨.STRING, "z", 28⟩⟩)]
    ⟨.EOF, "", 31⟩
    ⟨rfl, rfl, rfl⟩
    (by
      intro pc hpc
      simp only [List.mem_cons, List.not_mem_nil, or_false] at hpc
      rcases hpc with rfl | rfl
      · exact ⟨Or.inl rfl, rfl, rfl, rfl⟩
      · exact ⟨Or.inl rfl, rfl, rfl, rfl⟩)
    rfl

/-- C8: after the top-level expression is parsed, any remaining token
other than `EOF` makes `parse` fail with the trailing-token
`SyntaxError` (trailing tokens are rejected, not ignored); in particular
`parse("age 18")` and `parse("age >")` both fail with a `SyntaxError`. -/
theorem c8_trailing_rejected :
    (∀ (ts : List Token) (e : Expression) (st1 st2 : PState),
      parseRun (parseFuel ts) (.expression 1) (initPState ts) =
        .ok (e, st1) →
      st1.errors = [] →
      st2 = (if st1.peek.type = .EOF ∧ st1.cur.type ≠ .EOF
        then advanceP st1 else st1) →
      st2.cur.type ≠ .EOF →
      parseTokens ts =
        .error (.trailingToken st2.cur.literal st2.cur.position)) ∧
    parseExpressionString "age 18" = .error (.trailingToken "age" 0) ∧
    parseExpressionString "age >" = .error (.unexpectedToken "" 5) := by
  refine ⟨?_, by decide, by decide⟩
  intro ts e st1 st2 hrun herrs hst2 hne
  rw [parseTokens, hrun]
  dsimp only
  rw [if_neg (by simp [herrs])]
  rw [← hst2, if_pos hne]

/-- C8 (witness): the general part at the token stream of `age 18`. -/
theorem c8_witness :
    parseExpressionString "age 18" = .error (.trailingToken "age" 0) :=
  c8_trailing_rejected.1 (tokenize "age 18")
    (.identifier ⟨.IDENTIFIER, "age", 0⟩ "age")
    { cur := ⟨.IDENTIFIER, "age", 0⟩, peek := ⟨.NUMBER, "18", 4⟩,
      rest := [⟨.EOF, "", 6⟩], errors := [] }
    { cur := ⟨.IDENTIFIER, "age", 0⟩, peek := ⟨.NUMBER, "18", 4⟩,
      rest := [⟨.EOF, "", 6⟩], errors := [] }
    (by decide) rfl (by decide) (by decide)
